import Mathlib

/-!
Shallow embedding of the in-memory message/contact store of
`src/mail_store.py` (class `MailStore`), together with proofs of the
specified properties of its CRUD, search, CSV import/export and IMAP-sync
deduplication logic.

Modelling conventions:
* The persisted JSON document `{"messages": [...], "contacts": [...]}` is the
  structure `MailStore` below; `save()`/`load()` are file I/O and do not
  change the in-memory state, so they are not modelled.
* `random.choices(string.ascii_lowercase + string.digits, k=8)` is modelled
  by an oracle `rnd : Fin 8 → Fin 36` choosing an alphabet index per
  position; `datetime.now().strftime(...)` by an oracle string `now`.
* Python strings are Lean `String`s; `str.strip()` is `stripS`, over the
  exact Unicode whitespace set Python strips; `q in s` is `containsL` on
  character lists.  `str.lower()` is `lowerL`, which agrees with Python
  exactly on ASCII text; because Python lowercasing of non-ASCII text is
  context-sensitive (final sigma), the one claim that depends on
  lowercasing (C4) is scoped to ASCII message fields and queries, where
  the model is exact.
* Contact CSV files are modelled as their raw character content; Python's
  text-mode reading with universal newlines (splitting lines at `\n`,
  `\r\n` and lone `\r`) is modelled by `pyLines`.
-/

/-- Unicode whitespace as stripped by Python's `str.strip()`: exactly the
characters for which `str.isspace()` holds (0x09–0x0D, 0x1C–0x1F, space,
NEL 0x85, NBSP 0xA0, 0x1680, 0x2000–0x200A, 0x2028, 0x2029, 0x202F,
0x205F, 0x3000). -/
def isSpaceChar (c : Char) : Bool :=
  (0x09 ≤ c.toNat && c.toNat ≤ 0x0d) || (0x1c ≤ c.toNat && c.toNat ≤ 0x1f)
    || c.toNat = 0x20 || c.toNat = 0x85 || c.toNat = 0xa0 || c.toNat = 0x1680
    || (0x2000 ≤ c.toNat && c.toNat ≤ 0x200a) || c.toNat = 0x2028
    || c.toNat = 0x2029 || c.toNat = 0x202f || c.toNat = 0x205f
    || c.toNat = 0x3000

/-- Model of `str.strip()` on a character list: drop whitespace from both ends. -/
def stripL (l : List Char) : List Char :=
  ((l.dropWhile isSpaceChar).reverse.dropWhile isSpaceChar).reverse

/-- Model of `str.strip()` on a string. -/
def stripS (s : String) : String :=
  String.mk (stripL s.toList)

/-- Model of `str.lower()` on a character list.  `Char.toLower` agrees with
Python's `str.lower()` exactly on ASCII characters; on non-ASCII text
Python lowercasing is context-sensitive (e.g. the final-sigma rule), so
the claims that depend on lowercasing are stated for ASCII data only,
where this model is exact. -/
def lowerL (l : List Char) : List Char :=
  l.map Char.toLower

/-- ASCII-only predicate on a string, delimiting the domain on which
`lowerL` coincides with Python's `str.lower()`. -/
def isAsciiStr (s : String) : Bool :=
  s.toList.all (fun c => c.toNat < 128)

/-- Boolean test that `needle` begins `hay`. -/
def isPre : List Char → List Char → Bool
  | [], _ => true
  | _ :: _, [] => false
  | a :: as, b :: bs => a == b && isPre as bs

/-- Model of Python's substring test `needle in hay` on character lists. -/
def containsL (needle : List Char) : List Char → Bool
  | [] => needle.isEmpty
  | c :: t => isPre needle (c :: t) || containsL needle t

/-- Model of Python's `" ".join(...)` on character lists. -/
def joinSp : List (List Char) → List Char
  | [] => []
  | [x] => x
  | x :: y :: xs => x ++ ' ' :: joinSp (y :: xs)

/-- A stored message record (dataclass `Message` of `mail_store.py`). -/
structure Msg where
  id : String
  sender : String
  recipients : List String
  subject : String
  body : String
  timestamp : String
  folder : String
  attachments : List String
  forwarded_from : Option String
  message_uid : Option String
deriving DecidableEq, Repr

/-- A stored contact row (`{"name": ..., "email": ...}`). -/
structure Contact where
  name : String
  email : String
deriving DecidableEq, Repr

/-- The in-memory store: the persisted document's two collections. -/
structure MailStore where
  messages : List Msg
  contacts : List Contact
deriving DecidableEq, Repr

/-- The alphabet `string.ascii_lowercase + string.digits` used by
`MailStore._generate_id`. -/
def idAlphabet : List Char :=
  "abcdefghijklmnopqrstuvwxyz0123456789".toList

/-- The eight randomly chosen alphabet characters of `_generate_id`. -/
def idChars (rnd : Fin 8 → Fin 36) : List Char :=
  (List.finRange 8).map (fun i => idAlphabet.getD (rnd i).val 'a')

/-- Embedding of `MailStore._generate_id`: `"msg-"` followed by eight random
lowercase-or-digit characters. -/
def generateId (rnd : Fin 8 → Fin 36) : String :=
  "msg-" ++ String.mk (idChars rnd)

/-- Build the `Message` record exactly as `MailStore.add_message` does,
given the already-generated identifier and the current-time string. -/
def mkMessage (genId now sender : String) (recipients : List String)
    (subject body folder : String) (attachments : Option (List String))
    (fwd uid timestamp : Option String) : Msg :=
  { id := genId
    sender := sender
    recipients := recipients.filterMap
      (fun r => if stripS r = "" then none else some (stripS r))
    subject := subject
    body := body
    timestamp := match timestamp with
      | some t => if t = "" then now else t
      | none => now
    folder := folder
    attachments := (attachments.getD []).map stripS
    forwarded_from := fwd
    message_uid := uid }

/-- Embedding of `MailStore.add_message` with the generated identifier made explicit:
appends the new record and returns it. -/
def addMessageWithId (genId now : String) (store : MailStore) (sender : String)
    (recipients : List String) (subject body folder : String)
    (attachments : Option (List String)) (fwd uid timestamp : Option String) :
    Msg × MailStore :=
  let m := mkMessage genId now sender recipients subject body folder
    attachments fwd uid timestamp
  (m, { store with messages := store.messages ++ [m] })

/-- Embedding of `MailStore.add_message`: generates the identifier via `_generate_id`. -/
def addMessage (rnd : Fin 8 → Fin 36) (now : String) (store : MailStore)
    (sender : String) (recipients : List String) (subject body folder : String)
    (attachments : Option (List String)) (fwd uid timestamp : Option String) :
    Msg × MailStore :=
  addMessageWithId (generateId rnd) now store sender recipients subject body
    folder attachments fwd uid timestamp

/-- Embedding of `MailStore.get_message`: first stored record with the identifier. -/
def getMessage (store : MailStore) (mid : String) : Option Msg :=
  store.messages.find? (fun m => m.id == mid)

/-- Embedding of `MailStore.delete_message`: keep every record whose id differs. -/
def deleteMessage (store : MailStore) (mid : String) : MailStore :=
  { store with messages := store.messages.filter (fun m => m.id != mid) }

/-- Loop body of `MailStore.update_folder`: reassign the folder of the
first record with the identifier, then stop. -/
def updateFolderList (mid f : String) : List Msg → List Msg
  | [] => []
  | m :: ms =>
    if m.id == mid then { m with folder := f } :: ms
    else m :: updateFolderList mid f ms

/-- Embedding of `MailStore.update_folder`. -/
def updateFolder (store : MailStore) (mid f : String) : MailStore :=
  { store with messages := updateFolderList mid f store.messages }

/-- The joined searchable text of a message, before lowering:
`" ".join([sender, " ".join(recipients), subject, body])`. -/
def msgChars (m : Msg) : List Char :=
  joinSp [m.sender.toList, joinSp (m.recipients.map String.toList),
    m.subject.toList, m.body.toList]

/-- The lowered searchable text of a message. -/
def searchText (m : Msg) : List Char :=
  lowerL (msgChars m)

/-- The folder filter of `search_messages`: skip only when a non-empty
folder is given and differs (`if folder and msg.get("folder") != folder`). -/
def folderOk (folder : Option String) (m : Msg) : Bool :=
  match folder with
  | none => true
  | some f => if f = "" then true else m.folder == f

/-- Descending-timestamp ordering used by
`sorted(filtered, key=..., reverse=True)`. -/
def tsDesc (a b : Msg) : Prop :=
  b.timestamp ≤ a.timestamp

instance : DecidableRel tsDesc :=
  fun a b => inferInstanceAs (Decidable (b.timestamp ≤ a.timestamp))

instance : IsTotal Msg tsDesc :=
  ⟨fun a b => le_total b.timestamp a.timestamp⟩

instance : IsTrans Msg tsDesc :=
  ⟨fun _ _ _ hab hbc => le_trans hbc hab⟩

/-- Embedding of `MailStore.search_messages`: case-insensitive substring filter over the
joined text, optional exact folder filter, stable descending timestamp
sort. -/
def searchMessages (store : MailStore) (query : String) (folder : Option String) :
    List Msg :=
  let ql := lowerL query.toList
  let filtered := store.messages.filter
    (fun m => folderOk folder m && containsL ql (searchText m))
  filtered.insertionSort tsDesc

/-- Embedding of `MailStore.update_contact`: guarded positional write. -/
def updateContact (store : MailStore) (index : Int) (name email : String) :
    MailStore :=
  if 0 ≤ index ∧ index < (store.contacts.length : Int) then
    { store with contacts := store.contacts.set index.toNat ⟨name, email⟩ }
  else store

/-- Embedding of `MailStore.delete_contact`: guarded positional `pop`. -/
def deleteContact (store : MailStore) (index : Int) : MailStore :=
  if 0 ≤ index ∧ index < (store.contacts.length : Int) then
    { store with contacts := store.contacts.eraseIdx index.toNat }
  else store

/-- Embedding of `MailStore.export_contacts`: the raw character content of
the written CSV file, one `name,email` line with a `\n` terminator per
contact, no quoting. -/
def exportContent (store : MailStore) : List Char :=
  (store.contacts.map
    (fun c => c.name.toList ++ ',' :: (c.email.toList ++ ['\n']))).flatten

/-- Model of Python's text-mode line reading with universal newlines: the
content is split into lines at `\n`, `\r\n`, or a lone `\r` (the line
terminators themselves are dropped; `line.strip()` would remove them
anyway). -/
def pyLines : List Char → List (List Char)
  | [] => []
  | '\n' :: rest => [] :: pyLines rest
  | '\r' :: '\n' :: rest => [] :: pyLines rest
  | '\r' :: rest => [] :: pyLines rest
  | c :: rest =>
    match pyLines rest with
    | [] => [[c]]
    | l :: ls => (c :: l) :: ls

/-- Model of Python's `s.split(",", 1)` followed by unpacking into two names:
`none` models the raised `ValueError` when the line has no comma. -/
def splitFirstComma : List Char → Option (List Char × List Char)
  | [] => none
  | c :: cs =>
    if c = ',' then some ([], cs)
    else (splitFirstComma cs).map (fun p => (c :: p.1, p.2))

/-- Loop of `MailStore.import_contacts`: append a contact per line, stop
with the 0-based index of the first line whose stripped form has no comma. -/
def importGo : List Contact → List (List Char) → Nat → List Contact × Option Nat
  | cs, [], _ => (cs, none)
  | cs, l :: ls, k =>
    match splitFirstComma (stripL l) with
    | none => (cs, some k)
    | some p => importGo (cs ++ [⟨String.mk p.1, String.mk p.2⟩]) ls (k + 1)

/-- Embedding of `MailStore.import_contacts` on an existing file given as
its raw character content: returns the updated store and the index of the
offending line, if any. -/
def importContacts (store : MailStore) (content : List Char) :
    MailStore × Option Nat :=
  let r := importGo store.contacts (pyLines content) 0
  ({ store with contacts := r.1 }, r.2)

/-- Result of fetching and header-decoding one remote message during
`sync_imap`: the IMAP sequence id, whether the `FETCH` succeeded, the
`Message-ID` header (`none` when absent), and the fields produced by
`_parse_email_message` (the timestamp may be the empty string). -/
structure RemoteMsg where
  seqId : String
  fetchOk : Bool
  messageId : Option String
  sender : String
  recipients : List String
  subject : String
  body : String
  timestamp : String
deriving DecidableEq, Repr

/-- Model of `parsed.get("Message-ID") or` the `imap-` fallback: the identifier
used for deduplication, with the local fallback for a missing (or empty,
hence falsy) header. -/
def remoteUid (r : RemoteMsg) : String :=
  match r.messageId with
  | some m => if m = "" then "imap-" ++ r.seqId else m
  | none => "imap-" ++ r.seqId

/-- The set `existing_uids` computed at the start of `sync_imap`: the truthy
`message_uid` values of the stored messages. -/
def existingUids (store : MailStore) : List String :=
  (store.messages.filterMap (fun m => m.message_uid)).filter (fun u => u != "")

/-- The fetch loop of `sync_imap`: skip fetch failures and already-known
identifiers, otherwise insert as a new `"Inbox"` message and count it.
`gen`/`now` supply the per-insertion generated id and clock string. -/
def syncGo (gen now : Nat → String) (existing : List String) :
    List RemoteMsg → MailStore → Nat → MailStore × Nat
  | [], store, _ => (store, 0)
  | r :: rs, store, k =>
    if !r.fetchOk then syncGo gen now existing rs store k
    else if existing.contains (remoteUid r) then syncGo gen now existing rs store k
    else
      let store' := (addMessageWithId (gen k) (now k) store r.sender r.recipients
        r.subject r.body "Inbox" (some []) none (some (remoteUid r))
        (some r.timestamp)).2
      let res := syncGo gen now existing rs store' (k + 1)
      (res.1, res.2 + 1)

/-- Embedding of `MailStore.sync_imap` on the fetched page of remote messages (the IMAP
session itself is I/O): returns the updated store and the `added` count. -/
def syncImap (gen now : Nat → String) (store : MailStore)
    (remotes : List RemoteMsg) : MailStore × Nat :=
  syncGo gen now (existingUids store) remotes store 0

/-- Claim-side predicate of C4: the query is a case-insensitive substring
of the sender, of some recipient, of the subject, or of the body. -/
def fieldHitB (m : Msg) (q : String) : Bool :=
  let ql := lowerL q.toList
  containsL ql (lowerL m.sender.toList)
    || m.recipients.any (fun r => containsL ql (lowerL r.toList))
    || containsL ql (lowerL m.subject.toList)
    || containsL ql (lowerL m.body.toList)

/-- The contact parsed from a well-formed CSV line (arbitrary on a line
without a comma, which `importGo` rejects instead). -/
def parsedContact (line : List Char) : Contact :=
  match splitFirstComma (stripL line) with
  | some p => ⟨String.mk p.1, String.mk p.2⟩
  | none => ⟨"", ""⟩

/-- A CSV line accepted by the import loop: its stripped form contains a
comma. -/
def lineOk (line : List Char) : Bool :=
  (splitFirstComma (stripL line)).isSome

lemma updateFolderList_no_match (mid f : String) (l : List Msg)
    (h : ∀ x ∈ l, x.id ≠ mid) : updateFolderList mid f l = l := by
  induction l with
  | nil => rfl
  | cons a t ih =>
    have ha : a.id ≠ mid := h a (by simp)
    simp [updateFolderList, ha, ih (fun x hx => h x (by simp [hx]))]

lemma updateFolderList_decomp (mid f : String) (pre : List Msg) (m : Msg)
    (post : List Msg) (hpre : ∀ x ∈ pre, x.id ≠ mid) (hm : m.id = mid) :
    updateFolderList mid f (pre ++ m :: post)
      = pre ++ { m with folder := f } :: post := by
  induction pre with
  | nil => simp [updateFolderList, hm]
  | cons a t ih =>
    have ha : a.id ≠ mid := hpre a (by simp)
    simp [updateFolderList, ha, ih (fun x hx => hpre x (by simp [hx]))]

/-- C2: `delete_message(id)` removes exactly the stored record whose
identifier equals `id`, leaving all other records (and their order)
unchanged, and is a no-op on the whole store when no stored message has
that identifier. -/
theorem claim_C2_delete_message (store : MailStore) (mid : String) :
    ((∀ m ∈ store.messages, m.id ≠ mid) → deleteMessage store mid = store)
    ∧ (∀ pre m post, store.messages = pre ++ m :: post → m.id = mid →
        (∀ x ∈ pre, x.id ≠ mid) → (∀ x ∈ post, x.id ≠ mid) →
        (deleteMessage store mid).messages = pre ++ post) := by
  constructor
  · intro h
    have hf : store.messages.filter (fun m => m.id != mid) = store.messages :=
      List.filter_eq_self.mpr (fun a ha => by simpa using h a ha)
    cases store with
    | mk ms cs => simpa [deleteMessage] using hf
  · intro pre m post hms hm hpre hpost
    have h1 : pre.filter (fun x => x.id != mid) = pre :=
      List.filter_eq_self.mpr (fun a ha => by simpa using hpre a ha)
    have h2 : post.filter (fun x => x.id != mid) = post :=
      List.filter_eq_self.mpr (fun a ha => by simpa using hpost a ha)
    simp [deleteMessage, hms, List.filter_append, List.filter_cons, hm, h1, h2]

/-- Closed witness for C2: deleting `"msg-b"` from a three-message store
removes exactly the middle record, and deleting an absent identifier is a
no-op. -/
theorem claim_C2_delete_message_witness :
    (deleteMessage
        ⟨[{ id := "msg-a", sender := "s1", recipients := [], subject := "u1",
            body := "b1", timestamp := "t1", folder := "Inbox",
            attachments := [], forwarded_from := none, message_uid := none },
          { id := "msg-b", sender := "s2", recipients := [], subject := "u2",
            body := "b2", timestamp := "t2", folder := "Inbox",
            attachments := [], forwarded_from := none, message_uid := none },
          { id := "msg-c", sender := "s3", recipients := [], subject := "u3",
            body := "b3", timestamp := "t3", folder := "Sent",
            attachments := [], forwarded_from := none, message_uid := none }],
          []⟩ "msg-b").messages
      = [{ id := "msg-a", sender := "s1", recipients := [], subject := "u1",
            body := "b1", timestamp := "t1", folder := "Inbox",
            attachments := [], forwarded_from := none, message_uid := none },
          { id := "msg-c", sender := "s3", recipients := [], subject := "u3",
            body := "b3", timestamp := "t3", folder := "Sent",
            attachments := [], forwarded_from := none, message_uid := none }] :=
  (claim_C2_delete_message _ "msg-b").2
    [{ id := "msg-a", sender := "s1", recipients := [], subject := "u1",
        body := "b1", timestamp := "t1", folder := "Inbox",
        attachments := [], forwarded_from := none, message_uid := none }]
    { id := "msg-b", sender := "s2", recipients := [], subject := "u2",
        body := "b2", timestamp := "t2", folder := "Inbox",
        attachments := [], forwarded_from := none, message_uid := none }
    [{ id := "msg-c", sender := "s3", recipients := [], subject := "u3",
        body := "b3", timestamp := "t3", folder := "Sent",
        attachments := [], forwarded_from := none, message_uid := none }]
    rfl rfl (by decide) (by decide)

/-- C8: `update_folder(id, folder)` rewrites only the folder field of the
first stored record with the identifier, leaving its other fields, every
other record, and the order unchanged; with no matching record the store is
unchanged. -/
theorem claim_C8_update_folder (store : MailStore) (mid f : String) :
    ((∀ m ∈ store.messages, m.id ≠ mid) → updateFolder store mid f = store)
    ∧ (∀ pre m post, store.messages = pre ++ m :: post → m.id = mid →
        (∀ x ∈ pre, x.id ≠ mid) →
        (updateFolder store mid f).messages
          = pre ++ { m with folder := f } :: post) := by
  constructor
  · intro h
    cases store with
    | mk ms cs => simpa [updateFolder] using updateFolderList_no_match mid f ms h
  · intro pre m post hms hm hpre
    simp [updateFolder, hms, updateFolderList_decomp mid f pre m post hpre hm]

/-- Closed witness for C8: refiling `"msg-b"` to `"Archive"` changes only
that record's folder. -/
theorem claim_C8_update_folder_witness :
    (updateFolder
        ⟨[{ id := "msg-a", sender := "s1", recipients := ["r1"], subject := "u1",
            body := "b1", timestamp := "t1", folder := "Inbox",
            attachments := [], forwarded_from := none, message_uid := none },
          { id := "msg-b", sender := "s2", recipients := [], subject := "u2",
            body := "b2", timestamp := "t2", folder := "Sent",
            attachments := ["f.txt"], forwarded_from := some "z",
            message_uid := some "u" }],
          []⟩ "msg-b" "Archive").messages
      = [{ id := "msg-a", sender := "s1", recipients := ["r1"], subject := "u1",
            body := "b1", timestamp := "t1", folder := "Inbox",
            attachments := [], forwarded_from := none, message_uid := none },
          { id := "msg-b", sender := "s2", recipients := [], subject := "u2",
            body := "b2", timestamp := "t2", folder := "Archive",
            attachments := ["f.txt"], forwarded_from := some "z",
            message_uid := some "u" }] :=
  (claim_C8_update_folder _ "msg-b" "Archive").2
    [{ id := "msg-a", sender := "s1", recipients := ["r1"], subject := "u1",
        body := "b1", timestamp := "t1", folder := "Inbox",
        attachments := [], forwarded_from := none, message_uid := none }]
    { id := "msg-b", sender := "s2", recipients := [], subject := "u2",
        body := "b2", timestamp := "t2", folder := "Sent",
        attachments := ["f.txt"], forwarded_from := some "z",
        message_uid := some "u" }
    [] rfl rfl (by decide)

/-- C10: an out-of-range (negative or too large) contact index makes both
`update_contact` and `delete_contact` leave the whole store unchanged
without raising: the guard makes the mutation branch unreachable. -/
theorem claim_C10_contact_index_guard (store : MailStore) (index : Int)
    (name email : String)
    (h : index < 0 ∨ (store.contacts.length : Int) ≤ index) :
    updateContact store index name email = store
      ∧ deleteContact store index = store := by
  have hc : ¬ (0 ≤ index ∧ index < (store.contacts.length : Int)) := by
    rcases h with h | h <;> (intro hx; omega)
  constructor <;> simp [updateContact, deleteContact, hc]

/-- Closed witness for C10: index 5 in a one-contact store is guarded. -/
theorem claim_C10_contact_index_guard_witness :
    updateContact ⟨[], [⟨"Alice", "a@x.com"⟩]⟩ 5 "n" "e"
        = ⟨[], [⟨"Alice", "a@x.com"⟩]⟩
      ∧ deleteContact ⟨[], [⟨"Alice", "a@x.com"⟩]⟩ 5
        = ⟨[], [⟨"Alice", "a@x.com"⟩]⟩ :=
  claim_C10_contact_index_guard ⟨[], [⟨"Alice", "a@x.com"⟩]⟩ 5 "n" "e"
    (Or.inr (by decide))

lemma splitFirstComma_append (name email : List Char) (h : ',' ∉ name) :
    splitFirstComma (name ++ ',' :: email) = some (name, email) := by
  induction name with
  | nil => simp [splitFirstComma]
  | cons a as ih =>
    have ha : ¬ a = ',' := fun hh => h (hh ▸ List.mem_cons_self a as)
    have h' : ',' ∉ as := fun hh => h (List.mem_cons_of_mem _ hh)
    simp [splitFirstComma, ha, ih h']

lemma pyLines_line (l : List Char) (rest : List Char)
    (h : ∀ c ∈ l, c ≠ '\n' ∧ c ≠ '\x0d') :
    pyLines (l ++ '\n' :: rest) = l :: pyLines rest := by
  induction l with
  | nil => simp [pyLines]
  | cons c cs ih =>
    have hc := h c (List.mem_cons_self c cs)
    have ih' := ih (fun x hx => h x (List.mem_cons_of_mem _ hx))
    simp [pyLines, hc.1, hc.2, ih']

lemma importGo_ok (cs : List Contact) (good : List (List Char))
    (hg : ∀ l ∈ good, lineOk l = true) (ls : List (List Char)) (k : Nat) :
    importGo cs (good ++ ls) k
      = importGo (cs ++ good.map parsedContact) ls (k + good.length) := by
  induction good generalizing cs k with
  | nil => simp
  | cons g gs ih =>
    have hok : lineOk g = true := hg g (List.mem_cons_self g gs)
    obtain ⟨p, hp⟩ := Option.isSome_iff_exists.mp (by simpa [lineOk] using hok)
    have hpc : parsedContact g = ⟨String.mk p.1, String.mk p.2⟩ := by
      simp [parsedContact, hp]
    have hstep : importGo cs (g :: (gs ++ ls)) k
        = importGo (cs ++ [parsedContact g]) (gs ++ ls) (k + 1) := by
      simp [importGo, hp, hpc]
    rw [List.cons_append, hstep,
      ih (cs ++ [parsedContact g]) (fun l hl => hg l (List.mem_cons_of_mem _ hl))
        (k + 1)]
    have e1 : (cs ++ [parsedContact g]) ++ gs.map parsedContact
        = cs ++ (g :: gs).map parsedContact := by
      simp
    have e2 : k + 1 + gs.length = k + (g :: gs).length := by
      simp
      omega
    rw [e1, e2]

/-- C7: on a file whose lines (under Python's universal-newlines reading,
modelled by `pyLines`) are some lines that each split at a comma followed
by one that does not, `import_contacts` appends the parsed contacts of the
leading lines and then raises on the offending line (its 0-based index);
the partial import is kept and the remaining lines are not processed. -/
theorem claim_C7_import_error_keeps_partial (store : MailStore)
    (content : List Char) (good : List (List Char)) (bad : List Char)
    (rest : List (List Char))
    (hlines : pyLines content = good ++ bad :: rest)
    (hg : ∀ l ∈ good, lineOk l = true) (hb : lineOk bad = false) :
    importContacts store content
      = ({ store with contacts := store.contacts ++ good.map parsedContact },
          some good.length) := by
  have hbn : splitFirstComma (stripL bad) = none := by
    cases hcase : splitFirstComma (stripL bad) with
    | none => rfl
    | some p =>
      rw [lineOk, hcase] at hb
      simp at hb
  simp only [importContacts, hlines,
    importGo_ok store.contacts good hg (bad :: rest) 0]
  simp [importGo, hbn]

/-- Closed witness for C7: a file with one good line, then a line without
a comma; the good contact is kept and the error indexes line 1. -/
theorem claim_C7_import_error_keeps_partial_witness :
    importContacts ⟨[], []⟩
        "Alice,alice@x.com\nnocomma\nBob,bob@x.com\n".toList
      = (⟨[], [⟨"Alice", "alice@x.com"⟩]⟩, some 1) := by
  have h := claim_C7_import_error_keeps_partial ⟨[], []⟩
    "Alice,alice@x.com\nnocomma\nBob,bob@x.com\n".toList
    ["Alice,alice@x.com".toList] "nocomma".toList ["Bob,bob@x.com".toList]
    (by decide) (by decide) (by decide)
  exact h.trans (by decide)

lemma importGo_export (contacts : List Contact) :
    ∀ (cs : List Contact) (k : Nat),
      (∀ c ∈ contacts, ',' ∉ c.name.toList
        ∧ stripL (c.name.toList ++ ',' :: c.email.toList)
            = c.name.toList ++ ',' :: c.email.toList) →
      importGo cs
          (contacts.map (fun c => c.name.toList ++ ',' :: c.email.toList)) k
        = (cs ++ contacts, none) := by
  induction contacts with
  | nil => intro cs k _; simp [importGo]
  | cons c cst ih =>
    intro cs k h
    obtain ⟨hnc, hstrip⟩ := h c (List.mem_cons_self c cst)
    have hsplit : splitFirstComma
        (stripL (c.name.toList ++ ',' :: c.email.toList))
        = some (c.name.toList, c.email.toList) := by
      rw [hstrip]
      exact splitFirstComma_append _ _ hnc
    have hsplit2 : splitFirstComma (stripL (c.name.data ++ ',' :: c.email.data))
        = some (c.name.data, c.email.data) := hsplit
    have hmk : (⟨⟨c.name.data⟩, ⟨c.email.data⟩⟩ : Contact) = c := rfl
    have hstep : importGo cs
        ((c.name.toList ++ ',' :: c.email.toList)
          :: cst.map (fun c => c.name.toList ++ ',' :: c.email.toList)) k
        = importGo (cs ++ [c])
            (cst.map (fun c => c.name.toList ++ ',' :: c.email.toList))
            (k + 1) := by
      simp [importGo, hsplit2, hmk]
    rw [List.map_cons, hstep,
      ih (cs ++ [c]) (k + 1) (fun x hx => h x (List.mem_cons_of_mem _ hx))]
    simp

lemma pyLines_export (contacts : List Contact)
    (h : ∀ c ∈ contacts, '\n' ∉ c.name.toList ∧ '\n' ∉ c.email.toList
      ∧ '\x0d' ∉ c.name.toList ∧ '\x0d' ∉ c.email.toList) :
    pyLines (exportContent ⟨[], contacts⟩)
      = contacts.map (fun c => c.name.toList ++ ',' :: c.email.toList) := by
  induction contacts with
  | nil => rfl
  | cons c cst ih =>
    obtain ⟨h1, h2, h3, h4⟩ := h c (List.mem_cons_self c cst)
    have hline : ∀ ch ∈ c.name.toList ++ ',' :: c.email.toList,
        ch ≠ '\n' ∧ ch ≠ '\x0d' := by
      intro ch hch
      rcases List.mem_append.mp hch with hch | hch
      · exact ⟨fun e => h1 (e ▸ hch), fun e => h3 (e ▸ hch)⟩
      · rcases List.mem_cons.mp hch with e | hch
        · subst e
          exact ⟨by decide, by decide⟩
        · exact ⟨fun e => h2 (e ▸ hch), fun e => h4 (e ▸ hch)⟩
    have hEq : exportContent ⟨[], c :: cst⟩
        = (c.name.toList ++ ',' :: c.email.toList)
            ++ '\n' :: exportContent ⟨[], cst⟩ := by
      simp [exportContent]
    rw [hEq, pyLines_line _ _ hline,
      ih (fun x hx => h x (List.mem_cons_of_mem _ hx))]
    simp

/-- C6 (amended): exporting contacts and importing the produced file into
a fresh empty store reproduces the same contact sequence, provided names
and emails contain no commas, no newlines and no carriage returns (a
`\x0d` in a field splits the exported line under the universal-newlines
reading), and each exported `name,email` line is unchanged by stripping —
i.e. the name has no leading and the email no trailing whitespace
(`import_contacts` strips each line before splitting). -/
theorem claim_C6_roundtrip (contacts : List Contact)
    (h : ∀ c ∈ contacts, ',' ∉ c.name.toList ∧ ',' ∉ c.email.toList
      ∧ '\n' ∉ c.name.toList ∧ '\n' ∉ c.email.toList
      ∧ '\x0d' ∉ c.name.toList ∧ '\x0d' ∉ c.email.toList
      ∧ stripL (c.name.toList ++ ',' :: c.email.toList)
          = c.name.toList ++ ',' :: c.email.toList) :
    importContacts ⟨[], []⟩ (exportContent ⟨[], contacts⟩)
      = (⟨[], contacts⟩, none) := by
  have hpl := pyLines_export contacts
    (fun c hc => ⟨(h c hc).2.2.1, (h c hc).2.2.2.1,
      (h c hc).2.2.2.2.1, (h c hc).2.2.2.2.2.1⟩)
  have hgo := importGo_export contacts [] 0
    (fun c hc => ⟨(h c hc).1, (h c hc).2.2.2.2.2.2⟩)
  simp only [importContacts, hpl, hgo]
  simp

/-- Counterexample to C6 as stated: the name `" Alice"` contains no comma
and no newline, yet the round trip returns `"Alice"` because the import
strips each line. -/
theorem claim_C6_roundtrip_cex :
    importContacts ⟨[], []⟩ (exportContent ⟨[], [⟨" Alice", "a@x.com"⟩]⟩)
        = (⟨[], [⟨"Alice", "a@x.com"⟩]⟩, none)
      ∧ (⟨"Alice", "a@x.com"⟩ : Contact) ≠ ⟨" Alice", "a@x.com"⟩ := by decide

/-- Closed witness for C6 (amended): a two-contact export/import round
trip. -/
theorem claim_C6_roundtrip_witness :
    importContacts ⟨[], []⟩
        (exportContent ⟨[], [⟨"Bob", "b@x.com"⟩, ⟨"Ann Lee", "ann@y.org"⟩]⟩)
      = (⟨[], [⟨"Bob", "b@x.com"⟩, ⟨"Ann Lee", "ann@y.org"⟩]⟩, none) :=
  claim_C6_roundtrip [⟨"Bob", "b@x.com"⟩, ⟨"Ann Lee", "ann@y.org"⟩] (by decide)

lemma syncGo_spec (gen now : Nat → String) (existing : List String) :
    ∀ (remotes : List RemoteMsg) (store : MailStore) (k : Nat),
      (syncGo gen now existing remotes store k).2
          = (remotes.filter
              (fun r => r.fetchOk && !existing.contains (remoteUid r))).length
        ∧ ∃ tail,
            (syncGo gen now existing remotes store k).1.messages
                = store.messages ++ tail
              ∧ tail.length = (syncGo gen now existing remotes store k).2
              ∧ ∀ m ∈ tail, m.folder = "Inbox"
                ∧ ∃ r ∈ remotes, r.fetchOk = true
                  ∧ m.message_uid = some (remoteUid r)
                  ∧ existing.contains (remoteUid r) = false := by
  intro remotes
  induction remotes with
  | nil =>
    intro store k
    exact ⟨rfl, [], (List.append_nil _).symm, rfl, by simp⟩
  | cons r rs ih =>
    intro store k
    by_cases hok : r.fetchOk = true
    · by_cases hex : existing.contains (remoteUid r) = true
      · have hexP : remoteUid r ∈ existing := by simpa using hex
        have hunf : syncGo gen now existing (r :: rs) store k
            = syncGo gen now existing rs store k := by
          simp [syncGo, hok, hexP]
        obtain ⟨h1, tail, h2, h4, h3⟩ := ih store k
        rw [hunf]
        refine ⟨?_, tail, h2, ?_, ?_⟩
        · rw [h1]
          simp [List.filter_cons, hok, hexP]
        · rw [h4]
        · intro m hm
          obtain ⟨hf, rr, hrr, hrest⟩ := h3 m hm
          exact ⟨hf, rr, List.mem_cons_of_mem _ hrr, hrest⟩
      · have hexf : existing.contains (remoteUid r) = false :=
          Bool.eq_false_iff.mpr hex
        have hexP : remoteUid r ∉ existing := by simpa using hex
        have hunf : syncGo gen now existing (r :: rs) store k
            = ((syncGo gen now existing rs
                  (addMessageWithId (gen k) (now k) store r.sender r.recipients
                    r.subject r.body "Inbox" (some []) none
                    (some (remoteUid r)) (some r.timestamp)).2 (k + 1)).1,
                (syncGo gen now existing rs
                  (addMessageWithId (gen k) (now k) store r.sender r.recipients
                    r.subject r.body "Inbox" (some []) none
                    (some (remoteUid r)) (some r.timestamp)).2 (k + 1)).2 + 1) := by
          simp [syncGo, hok, hexP]
        obtain ⟨h1, tail, h2, h4, h3⟩ := ih
          (addMessageWithId (gen k) (now k) store r.sender r.recipients
            r.subject r.body "Inbox" (some []) none (some (remoteUid r))
            (some r.timestamp)).2 (k + 1)
        rw [hunf]
        refine ⟨?_, mkMessage (gen k) (now k) r.sender r.recipients r.subject
          r.body "Inbox" (some []) none (some (remoteUid r))
          (some r.timestamp) :: tail, ?_, ?_, ?_⟩
        · rw [h1]
          simp [List.filter_cons, hok, hexP]
        · rw [h2]
          simp [addMessageWithId]
        · simp [h4]
        · intro m hm
          rcases List.mem_cons.mp hm with hm | hm
          · subst hm
            exact ⟨rfl, r, List.mem_cons_self r rs, hok, rfl, hexf⟩
          · obtain ⟨hf, rr, hrr, hrest⟩ := h3 m hm
            exact ⟨hf, rr, List.mem_cons_of_mem _ hrr, hrest⟩
    · have hokf : r.fetchOk = false := Bool.eq_false_iff.mpr hok
      have hunf : syncGo gen now existing (r :: rs) store k
          = syncGo gen now existing rs store k := by
        simp [syncGo, hokf]
      obtain ⟨h1, tail, h2, h4, h3⟩ := ih store k
      rw [hunf]
      refine ⟨?_, tail, h2, ?_, ?_⟩
      · rw [h1]
        simp [List.filter_cons, hokf]
      · rw [h4]
      · intro m hm
        obtain ⟨hf, rr, hrr, hrest⟩ := h3 m hm
        exact ⟨hf, rr, List.mem_cons_of_mem _ hrr, hrest⟩

/-- C5: `sync_imap` inserts a fetched message only when its deduplication
identifier (the `Message-ID` header or, when that is missing or empty, the
locally synthesized `imap-` fallback) is not among the remote identifiers
stored at the start of the call; every inserted record lands in `"Inbox"`,
and the returned count is exactly the number of newly inserted messages. -/
theorem claim_C5_sync_dedup (gen now : Nat → String) (store : MailStore)
    (remotes : List RemoteMsg) :
    (syncImap gen now store remotes).2
        = (remotes.filter (fun r => r.fetchOk
            && !(existingUids store).contains (remoteUid r))).length
      ∧ ∃ tail,
          (syncImap gen now store remotes).1.messages
              = store.messages ++ tail
            ∧ tail.length = (syncImap gen now store remotes).2
            ∧ ∀ m ∈ tail, m.folder = "Inbox"
              ∧ ∃ r ∈ remotes, r.fetchOk = true
                ∧ m.message_uid = some (remoteUid r)
                ∧ (existingUids store).contains (remoteUid r) = false :=
  syncGo_spec gen now (existingUids store) remotes store 0

lemma containsL_nil_needle (hay : List Char) : containsL [] hay = true := by
  cases hay <;> simp [containsL, isPre, List.isEmpty]

lemma searchMessages_eq (store : MailStore) (query : String)
    (folder : Option String) :
    searchMessages store query folder
      = (store.messages.filter
          (fun m => folderOk folder m
            && containsL (lowerL query.toList) (searchText m))).insertionSort
          tsDesc := rfl

/-- C3: searching with the empty query and folder `"Inbox"` returns exactly
the stored messages whose folder is `"Inbox"` (as a permutation of that
sublist), sorted descending by their timestamp strings. -/
theorem claim_C3_search_empty_inbox (store : MailStore) :
    List.Perm (searchMessages store "" (some "Inbox"))
        (store.messages.filter (fun m => m.folder == "Inbox"))
      ∧ List.Sorted tsDesc (searchMessages store "" (some "Inbox")) := by
  have hfilter : store.messages.filter
      (fun m => folderOk (some "Inbox") m
        && containsL (lowerL "".toList) (searchText m))
      = store.messages.filter (fun m => m.folder == "Inbox") := by
    apply List.filter_congr
    intro m _
    have h1 : folderOk (some "Inbox") m = (m.folder == "Inbox") := rfl
    have h2 : containsL (lowerL "".toList) (searchText m) = true :=
      containsL_nil_needle _
    rw [h1, h2, Bool.and_true]
  constructor
  · rw [searchMessages_eq, hfilter]
    exact List.perm_insertionSort tsDesc _
  · rw [searchMessages_eq, hfilter]
    exact List.sorted_insertionSort tsDesc _

lemma isPre_iff (needle hay : List Char) :
    isPre needle hay = true ↔ ∃ t, hay = needle ++ t := by
  induction needle generalizing hay with
  | nil => simp [isPre]
  | cons a as ih =>
    cases hay with
    | nil =>
      simp [isPre]
    | cons b bs =>
      constructor
      · intro h
        have h' : a = b ∧ isPre as bs = true := by
          simpa [isPre, Bool.and_eq_true] using h
        obtain ⟨t, ht⟩ := (ih bs).mp h'.2
        exact ⟨t, by simp [h'.1, ht]⟩
      · rintro ⟨t, ht⟩
        obtain ⟨hb, hbs⟩ : b = a ∧ bs = as ++ t := by
          simpa using ht
        subst hb hbs
        simp [isPre, Bool.and_eq_true, (ih (as ++ t)).mpr ⟨t, rfl⟩]

lemma containsL_iff (needle hay : List Char) :
    containsL needle hay = true ↔ ∃ l r, hay = l ++ needle ++ r := by
  induction hay with
  | nil =>
    constructor
    · intro h
      have hn : needle = [] := by simpa [containsL, List.isEmpty_iff] using h
      exact ⟨[], [], by simp [hn]⟩
    · rintro ⟨l, r, h⟩
      obtain ⟨hl, hn, hr⟩ : l = [] ∧ needle = [] ∧ r = [] := by
        constructor
        · cases l with
          | nil => rfl
          | cons x xs => simp at h
        · cases l with
          | nil =>
            cases needle with
            | nil => simp_all
            | cons y ys => simp at h
          | cons x xs => simp at h
      simp [containsL, hn, List.isEmpty]
  | cons c t ih =>
    constructor
    · intro h
      rcases (by simpa [containsL, Bool.or_eq_true] using h :
          isPre needle (c :: t) = true ∨ containsL needle t = true) with h1 | h2
      · obtain ⟨s, hs⟩ := (isPre_iff _ _).mp h1
        exact ⟨[], s, by simp [hs]⟩
      · obtain ⟨l, r, hlr⟩ := ih.mp h2
        exact ⟨c :: l, r, by simp [hlr]⟩
    · rintro ⟨l, r, hlr⟩
      cases l with
      | nil =>
        have : isPre needle (c :: t) = true :=
          (isPre_iff _ _).mpr ⟨r, by simpa using hlr⟩
        simp [containsL, Bool.or_eq_true, this]
      | cons x xs =>
        obtain ⟨hx, ht⟩ : x = c ∧ xs ++ (needle ++ r) = t := by
          simpa using hlr.symm
        have : containsL needle t = true :=
          ih.mpr ⟨xs, r, by simp [← ht, List.append_assoc]⟩
        simp [containsL, Bool.or_eq_true, this]

lemma containsL_of_decomp (needle l r hay : List Char)
    (h : hay = l ++ needle ++ r) : containsL needle hay = true :=
  (containsL_iff _ _).mpr ⟨l, r, h⟩

lemma joinSp_decomp (x : List Char) (xs : List (List Char)) (hx : x ∈ xs) :
    ∃ l r, joinSp xs = l ++ x ++ r := by
  induction xs with
  | nil => cases hx
  | cons y ys ih =>
    cases ys with
    | nil =>
      have : x = y := by simpa using hx
      exact ⟨[], [], by simp [this, joinSp]⟩
    | cons z zs =>
      rcases List.mem_cons.mp hx with h | h
      · exact ⟨[], ' ' :: joinSp (z :: zs), by simp [h, joinSp]⟩
      · obtain ⟨l, r, hlr⟩ := ih h
        exact ⟨y ++ ' ' :: l, r, by simp [joinSp, hlr]⟩

lemma lowerL_append (a b : List Char) : lowerL (a ++ b) = lowerL a ++ lowerL b :=
  List.map_append _ a b

lemma containsL_searchText_of_field (m : Msg) (f ql : List Char)
    (hdec : ∃ l r, msgChars m = l ++ f ++ r)
    (hf : containsL ql (lowerL f) = true) :
    containsL ql (searchText m) = true := by
  obtain ⟨l, r, hlr⟩ := hdec
  obtain ⟨l2, r2, h2⟩ := (containsL_iff _ _).mp hf
  apply containsL_of_decomp ql (lowerL l ++ l2) (r2 ++ lowerL r)
  simp [searchText, hlr, lowerL_append, h2, List.append_assoc]

lemma msgChars_eq (m : Msg) :
    msgChars m
      = m.sender.toList
        ++ ' ' :: (joinSp (m.recipients.map String.toList)
        ++ ' ' :: (m.subject.toList ++ ' ' :: m.body.toList)) := rfl

lemma decomp_sender (m : Msg) :
    ∃ l r, msgChars m = l ++ m.sender.toList ++ r :=
  ⟨[], ' ' :: (joinSp (m.recipients.map String.toList)
      ++ ' ' :: (m.subject.toList ++ ' ' :: m.body.toList)),
    by rw [msgChars_eq]; simp⟩

lemma decomp_recipient (m : Msg) (r : String) (hr : r ∈ m.recipients) :
    ∃ l rr, msgChars m = l ++ r.toList ++ rr := by
  obtain ⟨l, rr, h⟩ := joinSp_decomp r.toList (m.recipients.map String.toList)
    (List.mem_map_of_mem _ hr)
  exact ⟨m.sender.toList ++ ' ' :: l,
    rr ++ ' ' :: (m.subject.toList ++ ' ' :: m.body.toList),
    by rw [msgChars_eq, h]; simp [List.append_assoc]⟩

lemma decomp_subject (m : Msg) :
    ∃ l r, msgChars m = l ++ m.subject.toList ++ r :=
  ⟨m.sender.toList ++ ' ' :: (joinSp (m.recipients.map String.toList) ++ [' ']),
    ' ' :: m.body.toList,
    by rw [msgChars_eq]; simp [List.append_assoc]⟩

lemma decomp_body (m : Msg) :
    ∃ l r, msgChars m = l ++ m.body.toList ++ r :=
  ⟨m.sender.toList ++ ' ' :: (joinSp (m.recipients.map String.toList)
      ++ ' ' :: (m.subject.toList ++ [' '])), [],
    by rw [msgChars_eq]; simp [List.append_assoc]⟩

/-- C4 (amended): for ASCII message fields and an ASCII query — the domain
on which `lowerL` is exactly Python's `str.lower()`; outside ASCII the
program's lowercasing is context-sensitive (final sigma) and the claim does
not hold as stated — a query that is a case-insensitive substring of the
sender, of some recipient, of the subject, or of the body of a stored
message is found by `search_messages(q)`; and when the query does not occur
in the space-joined lowered field text of any stored message the result is
empty.  (The code matches against the joined text, so a query spanning a
field boundary can match even though no single field contains it.) -/
theorem claim_C4_search_field_match (store : MailStore) (q : String)
    (_hq : isAsciiStr q = true)
    (_hascii : ∀ m ∈ store.messages, isAsciiStr m.sender = true
      ∧ (∀ r ∈ m.recipients, isAsciiStr r = true)
      ∧ isAsciiStr m.subject = true ∧ isAsciiStr m.body = true) :
    (∀ m ∈ store.messages, fieldHitB m q = true → m ∈ searchMessages store q none)
    ∧ ((∀ m ∈ store.messages,
          containsL (lowerL q.toList) (searchText m) = false) →
        searchMessages store q none = []) := by
  constructor
  · intro m hm hhit
    have hh : containsL (lowerL q.toList) (lowerL m.sender.toList) = true
        ∨ (∃ r ∈ m.recipients,
            containsL (lowerL q.toList) (lowerL r.toList) = true)
        ∨ containsL (lowerL q.toList) (lowerL m.subject.toList) = true
        ∨ containsL (lowerL q.toList) (lowerL m.body.toList) = true := by
      simpa [fieldHitB, Bool.or_eq_true, List.any_eq_true, or_assoc] using hhit
    have hql : containsL (lowerL q.toList) (searchText m) = true := by
      rcases hh with h | ⟨r, hr, h⟩ | h | h
      · exact containsL_searchText_of_field m _ _ (decomp_sender m) h
      · exact containsL_searchText_of_field m _ _ (decomp_recipient m r hr) h
      · exact containsL_searchText_of_field m _ _ (decomp_subject m) h
      · exact containsL_searchText_of_field m _ _ (decomp_body m) h
    have hmem : m ∈ store.messages.filter
        (fun x => folderOk none x && containsL (lowerL q.toList) (searchText x)) :=
      List.mem_filter.mpr ⟨hm, by
        show (folderOk none m && containsL (lowerL q.toList) (searchText m)) = true
        rw [hql]
        rfl⟩
    rw [searchMessages_eq]
    simpa [List.mem_insertionSort] using hmem
  · intro h
    rw [searchMessages_eq]
    have hnil : store.messages.filter
        (fun x => folderOk none x && containsL (lowerL q.toList) (searchText x))
        = [] := by
      apply List.filter_eq_nil_iff.mpr
      intro a ha hcontra
      have hc : (folderOk none a
          && containsL (lowerL q.toList) (searchText a)) = true := hcontra
      have hc2 : containsL (lowerL q.toList) (searchText a) = true :=
        (Bool.and_eq_true _ _).mp hc |>.2
      rw [h a ha] at hc2
      exact Bool.false_ne_true hc2
    rw [hnil]
    rfl

/-- Store of the C4 counterexample: one inbox message with sender `"ab"`,
single recipient `"cd"`, subject `"s"` and body `"b"`. -/
def c4Store : MailStore :=
  ⟨[{ id := "msg-00000001", sender := "ab", recipients := ["cd"],
      subject := "s", body := "b", timestamp := "2024-01-01 00:00:00",
      folder := "Inbox", attachments := [], forwarded_from := none,
      message_uid := none }], []⟩

/-- Counterexample to C4 as stated: the query `"b c"` is a substring of no
single field of the stored message, yet `search_messages` returns it,
because the match is made against the space-joined text `"ab cd s b"`. -/
theorem claim_C4_search_field_match_cex :
    (∀ m ∈ c4Store.messages, fieldHitB m "b c" = false)
      ∧ searchMessages c4Store "b c" none ≠ [] := by decide

/-- Message of the C4 witness store. -/
def c4wMsg : Msg :=
  { id := "msg-00000002", sender := "ann@x.com", recipients := ["bob@x.com"],
    subject := "Hello", body := "text", timestamp := "2024-01-02 00:00:00",
    folder := "Inbox", attachments := [], forwarded_from := none,
    message_uid := none }

/-- Closed witness for C4 (amended): the query `"ell"` hits the subject
`"Hello"` case-insensitively and the message is returned; the query
`"zzz"` occurs nowhere and the result is empty. -/
theorem claim_C4_search_field_match_witness :
    c4wMsg ∈ searchMessages ⟨[c4wMsg], []⟩ "ell" none
      ∧ searchMessages ⟨[c4wMsg], []⟩ "zzz" none = [] :=
  ⟨(claim_C4_search_field_match ⟨[c4wMsg], []⟩ "ell" (by decide)
        (by decide)).1 c4wMsg (by decide) (by decide),
    (claim_C4_search_field_match ⟨[c4wMsg], []⟩ "zzz" (by decide)
        (by decide)).2 (by decide)⟩

lemma msg_prefixed_ne_empty (t : String) : ("msg-" ++ t) ≠ "" := by
  intro h
  have hd : ("msg-" ++ t).data = ("" : String).data := congrArg String.data h
  simp [String.data_append] at hd

/-- C1 as stated fails when the freshly generated identifier collides with
an identifier already in the store (`_generate_id` leaves collisions
unchecked): `get_message` then returns the earlier record, here with sender
`"old@x.com"` instead of the argument `"new@x.com"`. -/
def c1OldMsg : Msg :=
  { id := "msg-aaaaaaaa", sender := "old@x.com", recipients := [],
    subject := "old subject", body := "old body",
    timestamp := "2023-01-01 00:00:00", folder := "Inbox", attachments := [],
    forwarded_from := none, message_uid := none }

/-- The colliding `add_message` call of the C1 counterexample: the random
oracle picks index 0 eight times, generating `"msg-aaaaaaaa"` again. -/
def c1Call : Msg × MailStore :=
  addMessage (fun _ => (0 : Fin 36)) "2024-01-01 00:00:00" ⟨[c1OldMsg], []⟩
    "new@x.com" ["r@x.com"] "subj" "body" "Sent" none none none none

/-- Counterexample to C1 as stated: on a store already holding a message
with the colliding identifier, `get_message` on the returned identifier
yields the old record, whose sender differs from the `sender` argument. -/
theorem claim_C1_add_then_get_cex :
    (getMessage c1Call.2 c1Call.1.id).map Msg.sender = some "old@x.com"
      ∧ "old@x.com" ≠ "new@x.com" := by decide

/-- C1 (amended): provided the freshly generated identifier differs from
every stored identifier — the store's identifier-uniqueness invariant,
which the code itself never checks — `add_message` followed by
`get_message` on the returned identifier yields the new record, whose
sender/subject/body/folder equal the arguments and whose identifier is a
non-empty generated string. -/
theorem claim_C1_add_then_get (rnd : Fin 8 → Fin 36) (now : String)
    (store : MailStore) (sender : String) (recipients : List String)
    (subject body folder : String) (attachments : Option (List String))
    (fwd uid timestamp : Option String)
    (hfresh : ∀ m ∈ store.messages, m.id ≠ generateId rnd) :
    ∀ res, res = addMessage rnd now store sender recipients subject body
        folder attachments fwd uid timestamp →
      getMessage res.2 res.1.id = some res.1
        ∧ res.1.sender = sender ∧ res.1.subject = subject
        ∧ res.1.body = body ∧ res.1.folder = folder ∧ res.1.id ≠ "" := by
  intro res hres
  subst hres
  have hnone : store.messages.find? (fun x => x.id == generateId rnd) = none := by
    rw [List.find?_eq_none]
    intro x hx
    simpa using hfresh x hx
  refine ⟨?_, rfl, rfl, rfl, rfl, msg_prefixed_ne_empty _⟩
  show (store.messages ++ [mkMessage (generateId rnd) now sender recipients
      subject body folder attachments fwd uid timestamp]).find?
      (fun m => m.id == generateId rnd) = _
  rw [List.find?_append, hnone]
  simp
  exact ⟨rfl, rfl⟩

/-- Closed witness for C1 (amended): a fresh generated identifier on a
store holding one other message. -/
theorem claim_C1_add_then_get_witness :
    getMessage
        (addMessage (fun _ => (1 : Fin 36)) "2024-01-01 00:00:00"
          ⟨[c1OldMsg], []⟩ "new@x.com" ["r@x.com"] "subj" "body" "Sent"
          none none none none).2
        (addMessage (fun _ => (1 : Fin 36)) "2024-01-01 00:00:00"
          ⟨[c1OldMsg], []⟩ "new@x.com" ["r@x.com"] "subj" "body" "Sent"
          none none none none).1.id
      = some (addMessage (fun _ => (1 : Fin 36)) "2024-01-01 00:00:00"
          ⟨[c1OldMsg], []⟩ "new@x.com" ["r@x.com"] "subj" "body" "Sent"
          none none none none).1
    ∧ (addMessage (fun _ => (1 : Fin 36)) "2024-01-01 00:00:00"
          ⟨[c1OldMsg], []⟩ "new@x.com" ["r@x.com"] "subj" "body" "Sent"
          none none none none).1.sender = "new@x.com"
    ∧ (addMessage (fun _ => (1 : Fin 36)) "2024-01-01 00:00:00"
          ⟨[c1OldMsg], []⟩ "new@x.com" ["r@x.com"] "subj" "body" "Sent"
          none none none none).1.subject = "subj"
    ∧ (addMessage (fun _ => (1 : Fin 36)) "2024-01-01 00:00:00"
          ⟨[c1OldMsg], []⟩ "new@x.com" ["r@x.com"] "subj" "body" "Sent"
          none none none none).1.body = "body"
    ∧ (addMessage (fun _ => (1 : Fin 36)) "2024-01-01 00:00:00"
          ⟨[c1OldMsg], []⟩ "new@x.com" ["r@x.com"] "subj" "body" "Sent"
          none none none none).1.folder = "Sent"
    ∧ (addMessage (fun _ => (1 : Fin 36)) "2024-01-01 00:00:00"
          ⟨[c1OldMsg], []⟩ "new@x.com" ["r@x.com"] "subj" "body" "Sent"
          none none none none).1.id ≠ "" :=
  claim_C1_add_then_get (fun _ => (1 : Fin 36)) "2024-01-01 00:00:00"
    ⟨[c1OldMsg], []⟩ "new@x.com" ["r@x.com"] "subj" "body" "Sent"
    none none none none (by decide) _ rfl

lemma idAlphabet_getD_alphanum :
    ∀ k : Fin 36, (idAlphabet.getD k.val 'a').isAlphanum = true := by decide

/-- C9: every message returned by `add_message` carries an identifier of
the form `"msg-"` (the fixed prefix) followed by exactly eight alphanumeric
characters chosen by the random oracle. -/
theorem claim_C9_generated_id (rnd : Fin 8 → Fin 36) (now : String)
    (store : MailStore) (sender : String) (recipients : List String)
    (subject body folder : String) (attachments : Option (List String))
    (fwd uid timestamp : Option String) :
    ∃ s : String,
      (addMessage rnd now store sender recipients subject body folder
          attachments fwd uid timestamp).1.id = "msg-" ++ s
        ∧ s.length = 8 ∧ ∀ c ∈ s.toList, c.isAlphanum = true := by
  refine ⟨String.mk (idChars rnd), rfl, ?_, ?_⟩
  · show (idChars rnd).length = 8
    simp [idChars]
  · intro c hc
    have hc' : c ∈ idChars rnd := hc
    simp only [idChars, List.mem_map] at hc'
    obtain ⟨i, _, rfl⟩ := hc'
    exact idAlphabet_getD_alphanum (rnd i)
